import Mathlib

/-!
# PMT position generation for the XENON1T detector — verification development

Shallow embedding of `examples/PMT_positions_1T.ipynb`:

* `get_pmt_positions_top` / `get_pmt_positions_bottom` — the two locators,
  with the cumulative-count `while` loop rendered by the fueled `scan`
  (fuel = length of the count list, which is enough: the loop either exits
  or indexes out of bounds before `length` iterations, since `index1`
  grows by one per iteration).  List indexing uses `l[i]?`, so a Python
  `IndexError` becomes `none`.
* `rotate`, `rotation_angle_top`, `rotation_angle_bottom` — cell 2/3.
* `pmt_locations` — the assembled 248-entry list of cell 6 (the Python loop
  appends `positions_top[127-1-i]` for `i = 0..126`, i.e. the reverse of
  `positions_top`, then `positions_bottom` in order), and the accessor
  `pmt_position`.

Machine floats are modelled by `ℝ`; errors by `Option`.
-/

set_option maxRecDepth 10000

namespace PMTPositions

/-! ## Constants (cell 1) -/

noncomputable def PMT_distance_top : ℝ := 7.95

noncomputable def PMT_distance_bottom : ℝ := 8.0

noncomputable def PMTOuterRingRadius : ℝ := 3.875

/-! ## The shared while loop

Python (top):  `index1 = 0; iTotal = array[0]`, then
`while number > iTotal: index1 += 1; iTotal += array[index1]`.
The bottom locator is identical except the guard is
`number > n_pmts_top + iTotal`; the difference is the `offset` argument
(0 for top, 127 for bottom). -/

def scan (counts : List ℤ) (offset number : ℤ) : ℕ → ℕ → ℤ → Option (ℕ × ℤ)
  | 0, index1, iTotal =>
      if number > offset + iTotal then none else some (index1, iTotal)
  | fuel + 1, index1, iTotal =>
      if number > offset + iTotal then
        match counts[index1 + 1]? with
        | none => none
        | some c => scan counts offset number fuel (index1 + 1) (iTotal + c)
      else some (index1, iTotal)

/-! ## Top array locator (cell 1) -/

/-- `array = [i*6 for i in range(7)]; array[0] = 1`. -/
def count_top : List ℤ := ((List.range 7).map fun i => (i : ℤ) * 6).set 0 1

/-- `radius = [i*PMT_distance_top for i in range(7)]`. -/
noncomputable def radius_top : List ℝ :=
  (List.range 7).map fun i : ℕ => (i : ℝ) * PMT_distance_top

noncomputable def get_pmt_positions_top (number : ℤ) : Option (ℝ × ℝ) :=
  match scan count_top 0 number count_top.length 0 1 with
  | none => none
  | some (index1, iTotal) =>
      match count_top[index1]?, radius_top[index1]? with
      | some c, some rad =>
          let index2 : ℤ := number + c - iTotal
          some (rad * Real.cos ((index2 : ℝ) * Real.pi * 2 / (c : ℝ)),
                rad * Real.sin ((index2 : ℝ) * Real.pi * 2 / (c : ℝ)))
      | _, _ => none

/-! ## Bottom array locator (cell 1) -/

noncomputable def row_distance : ℝ := Real.sqrt 3 / 2 * PMT_distance_bottom

def n_rows : ℕ := 13

def n_pmts_top : ℤ := 127

def count_bottom : List ℤ := [5, 8, 9, 10, 11, 12, 11, 12, 11, 10, 9, 8, 5]

/-- `PMTsRowOffset.append(-0.5*(array[i]-1)*PMT_distance_bottom)` for each row. -/
noncomputable def PMTsRowOffset : List ℝ :=
  count_bottom.map fun c : ℤ => -0.5 * ((c : ℝ) - 1) * PMT_distance_bottom

noncomputable def get_pmt_positions_bottom (number : ℤ) : Option (ℝ × ℝ) :=
  match scan count_bottom n_pmts_top number count_bottom.length 0 5 with
  | none => none
  | some (index1, iTotal) =>
      match count_bottom[index1]?, PMTsRowOffset[index1]? with
      | some c, some off =>
          let index2 : ℤ := number + c - iTotal - (n_pmts_top + 1)
          some (off + (index2 : ℝ) * PMT_distance_bottom,
                (0.5 * ((n_rows : ℝ) - 1) - (index1 : ℝ)) * row_distance)
      | _, _ => none

/-! ## Rotation (cell 1) and the two rotation angles (cells 2–3) -/

noncomputable def rotate (pos : ℝ × ℝ) (angle : ℝ) : ℝ × ℝ :=
  (pos.1 * Real.cos angle - pos.2 * Real.sin angle,
   pos.1 * Real.sin angle + pos.2 * Real.cos angle)

noncomputable def rotation_angle_top : ℝ := Real.pi / 2 + 3 / 72 * 2 * Real.pi

noncomputable def rotation_angle_bottom : ℝ := Real.pi / 8

/-! ## Assembly (cells 2, 3 and 6) -/

/-- Cell 2: `positions_top[i] = rotate(get_pmt_positions_top(i+1), θ_top)`. -/
noncomputable def positions_top : List (Option (ℝ × ℝ)) :=
  (List.range 127).map fun i : ℕ =>
    (get_pmt_positions_top ((i : ℤ) + 1)).map fun p => rotate p rotation_angle_top

/-- Cell 3: `positions_bottom[i] = rotate(get_pmt_positions_bottom(128+i), θ_bottom)`. -/
noncomputable def positions_bottom : List (Option (ℝ × ℝ)) :=
  (List.range 121).map fun i : ℕ =>
    (get_pmt_positions_bottom (128 + (i : ℤ))).map fun p => rotate p rotation_angle_bottom

/-- Cell 6: the loop appends `positions_top[127-1-i]` for `i = 0..126`
(the reverse of `positions_top`), then all of `positions_bottom` in order. -/
noncomputable def pmt_locations : List (Option (ℝ × ℝ)) :=
  positions_top.reverse ++ positions_bottom

/-- Accessor keyed by channel number: entry `channel` of `pmt_locations`
(`none` past the end of the list). -/
noncomputable def pmt_position (channel : ℕ) : Option (ℝ × ℝ) :=
  (pmt_locations[channel]?).getD none

/-! ## Discrete skeleton of the two locators

`ringOf` / `rowOf` follow the spec's description of the lookup: the smallest
ring (row) index whose cumulative count reaches the (offset-adjusted)
generation number.  The `scan` characterisation lemmas below tie the code's
while loop to this description on the whole valid domain. -/

def cumTop (r : ℕ) : ℤ := (count_top.take (r + 1)).sum

def ringOf (n : ℤ) : ℕ := (((List.range 7).find? fun r => decide (n ≤ cumTop r)).getD 6)

def cTop (r : ℕ) : ℤ := count_top.getD r 0

def withinTop (n : ℤ) : ℤ := n + cTop (ringOf n) - cumTop (ringOf n)

def cumBot (r : ℕ) : ℤ := (count_bottom.take (r + 1)).sum

def rowOf (n : ℤ) : ℕ := (((List.range 13).find? fun r => decide (n - 127 ≤ cumBot r)).getD 12)

def cBot (r : ℕ) : ℤ := count_bottom.getD r 0

def idx2Bot (n : ℤ) : ℤ := n + cBot (rowOf n) - cumBot (rowOf n) - 128

/-- The x coordinate of a bottom-array PMT, as an integer:
`-0.5*(c-1)*8 + index2*8 = -4*(c-1) + 8*index2`. -/
def xIntBot (n : ℤ) : ℤ := -4 * (cBot (rowOf n) - 1) + 8 * idx2Bot n

set_option maxRecDepth 10000 in
lemma top_scan_char : ∀ n ∈ Finset.Icc (1 : ℤ) 127,
    scan count_top 0 n count_top.length 0 1 = some (ringOf n, cumTop (ringOf n)) ∧
    count_top[ringOf n]? = some (cTop (ringOf n)) ∧
    ringOf n < 7 ∧ 1 ≤ withinTop n ∧ withinTop n ≤ cTop (ringOf n) ∧
    1 ≤ cTop (ringOf n) ∧
    n = withinTop n + (count_top.take (ringOf n)).sum ∧
    (ringOf n = 0 → n = 1) := by decide

set_option maxRecDepth 10000 in
lemma bot_scan_char : ∀ n ∈ Finset.Icc (128 : ℤ) 248,
    scan count_bottom n_pmts_top n count_bottom.length 0 5 =
      some (rowOf n, cumBot (rowOf n)) ∧
    count_bottom[rowOf n]? = some (cBot (rowOf n)) ∧
    rowOf n < 13 ∧ 0 ≤ idx2Bot n ∧ idx2Bot n ≤ cBot (rowOf n) - 1 ∧
    1 ≤ cBot (rowOf n) ∧
    n = idx2Bot n + 128 + (count_bottom.take (rowOf n)).sum := by decide

/-! ## Closed forms for the two locators on their valid domains -/

/-- The raw (pre-rotation) top-array position of the PMT with 1-based
within-ring index `k` on ring `r`. -/
noncomputable def topPt (r : ℕ) (k : ℤ) : ℝ × ℝ :=
  ((r : ℝ) * PMT_distance_top * Real.cos ((k : ℝ) * Real.pi * 2 / (cTop r : ℝ)),
   (r : ℝ) * PMT_distance_top * Real.sin ((k : ℝ) * Real.pi * 2 / (cTop r : ℝ)))

/-- The raw (pre-rotation) bottom-array position of the PMT with 0-based
within-row index `k` on row `r`. -/
noncomputable def botPt (r : ℕ) (k : ℤ) : ℝ × ℝ :=
  (-0.5 * ((cBot r : ℝ) - 1) * PMT_distance_bottom + (k : ℝ) * PMT_distance_bottom,
   (0.5 * ((n_rows : ℝ) - 1) - (r : ℝ)) * row_distance)

lemma get_top_eq {n : ℤ} (h1 : 1 ≤ n) (h2 : n ≤ 127) :
    get_pmt_positions_top n = some (topPt (ringOf n) (withinTop n)) := by
  obtain ⟨hscan, hget, hlt, -, -, -, -, -⟩ :=
    top_scan_char n (Finset.mem_Icc.mpr ⟨h1, h2⟩)
  have hrad : radius_top[ringOf n]? = some ((ringOf n : ℝ) * PMT_distance_top) := by
    simp only [radius_top, List.getElem?_map, List.getElem?_range hlt, Option.map_some']
  simp only [get_pmt_positions_top, hscan, hget, hrad, topPt, withinTop]

lemma get_bot_eq {n : ℤ} (h1 : 128 ≤ n) (h2 : n ≤ 248) :
    get_pmt_positions_bottom n = some (botPt (rowOf n) (idx2Bot n)) := by
  obtain ⟨hscan, hget, hlt, -, -, -, -⟩ :=
    bot_scan_char n (Finset.mem_Icc.mpr ⟨h1, h2⟩)
  have hoff : PMTsRowOffset[rowOf n]? =
      some (-0.5 * ((cBot (rowOf n) : ℝ) - 1) * PMT_distance_bottom) := by
    simp only [PMTsRowOffset, List.getElem?_map, hget, Option.map_some']
  simp only [get_pmt_positions_bottom, hscan, hget, hoff, botPt, idx2Bot]
  norm_num [n_pmts_top]

/-! ## Geometry helpers -/

noncomputable def normSq (p : ℝ × ℝ) : ℝ := p.1 ^ 2 + p.2 ^ 2

lemma normSq_rotate (p : ℝ × ℝ) (θ : ℝ) : normSq (rotate p θ) = normSq p := by
  have h := Real.sin_sq_add_cos_sq θ
  simp only [rotate, normSq]
  linear_combination (p.1 ^ 2 + p.2 ^ 2) * h

lemma rotate_neg_rotate (p : ℝ × ℝ) (θ : ℝ) : rotate (rotate p θ) (-θ) = p := by
  have h := Real.sin_sq_add_cos_sq θ
  unfold rotate
  rw [Prod.ext_iff]
  constructor
  · simp only [Real.cos_neg, Real.sin_neg]
    linear_combination p.1 * h
  · simp only [Real.cos_neg, Real.sin_neg]
    linear_combination p.2 * h

lemma rotate_inj {θ : ℝ} {p q : ℝ × ℝ} (h : rotate p θ = rotate q θ) : p = q := by
  have h' := congrArg (fun z => rotate z (-θ)) h
  simpa only [rotate_neg_rotate] using h'

lemma rotate_origin (θ : ℝ) : rotate (0, 0) θ = (0, 0) := by
  simp [rotate]

/-- Two angles less than a full turn apart with the same cosine and sine
are equal. -/
lemma cos_sin_eq {a b : ℝ} (h1 : -(2 * Real.pi) < a - b) (h2 : a - b < 2 * Real.pi)
    (hc : Real.cos a = Real.cos b) (hs : Real.sin a = Real.sin b) : a = b := by
  have hone : Real.cos (a - b) = 1 := by
    rw [Real.cos_sub, hc, hs]
    linear_combination Real.sin_sq_add_cos_sq b
  have h0 := (Real.cos_eq_one_iff_of_lt_of_lt h1 h2).mp hone
  linarith

lemma normSq_topPt (r : ℕ) (k : ℤ) :
    normSq (topPt r k) = ((r : ℝ) * PMT_distance_top) ^ 2 := by
  have h := Real.sin_sq_add_cos_sq ((k : ℝ) * Real.pi * 2 / (cTop r : ℝ))
  simp only [topPt, normSq]
  linear_combination ((r : ℝ) * PMT_distance_top) ^ 2 * h

lemma topPt_ring_zero (k : ℤ) : topPt 0 k = (0, 0) := by
  simp [topPt]

lemma botPt_x (r : ℕ) (k : ℤ) :
    (botPt r k).1 = ((-4 * (cBot r - 1) + 8 * k : ℤ) : ℝ) := by
  simp only [botPt, PMT_distance_bottom]
  push_cast
  ring

lemma botPt_y (r : ℕ) (k : ℤ) :
    (botPt r k).2 = ((6 - (r : ℤ) : ℤ) : ℝ) * (4 * Real.sqrt 3) := by
  simp only [botPt, row_distance, PMT_distance_bottom, n_rows]
  push_cast
  ring

lemma normSq_botPt (r : ℕ) (k : ℤ) :
    normSq (botPt r k) =
      (((-4 * (cBot r - 1) + 8 * k) ^ 2 + 48 * (6 - (r : ℤ)) ^ 2 : ℤ) : ℝ) := by
  have h3 : Real.sqrt 3 ^ 2 = 3 := Real.sq_sqrt (by norm_num)
  rw [normSq, botPt_x, botPt_y]
  push_cast
  linear_combination 16 * (6 - (r : ℝ)) ^ 2 * h3

/-! ## Injectivity of the raw positions -/

lemma botPt_inj {r r' : ℕ} {k k' : ℤ} (h : botPt r k = botPt r' k') :
    r = r' ∧ k = k' := by
  have hy := congrArg Prod.snd h
  rw [botPt_y, botPt_y] at hy
  have hs : (0 : ℝ) < 4 * Real.sqrt 3 := by
    have := Real.sqrt_pos.mpr (show (0:ℝ) < 3 by norm_num)
    linarith
  have hyz : ((6 - (r : ℤ) : ℤ) : ℝ) = ((6 - (r' : ℤ) : ℤ) : ℝ) :=
    mul_right_cancel₀ (ne_of_gt hs) hy
  have hrr' : r = r' := by
    have : (6 - (r : ℤ)) = 6 - (r' : ℤ) := by exact_mod_cast hyz
    omega
  subst hrr'
  refine ⟨rfl, ?_⟩
  have hx := congrArg Prod.fst h
  rw [botPt_x, botPt_x] at hx
  have : (-4 * (cBot r - 1) + 8 * k : ℤ) = -4 * (cBot r - 1) + 8 * k' := by
    exact_mod_cast hx
  omega

lemma topPt_inj {r r' : ℕ} {k k' : ℤ}
    (hr : r < 7) (hr' : r' < 7)
    (hk1 : 1 ≤ k) (hk2 : k ≤ cTop r) (hk1' : 1 ≤ k') (hk2' : k' ≤ cTop r')
    (h : topPt r k = topPt r' k') : r = r' ∧ (r = 0 ∨ k = k') := by
  have hnorm : ((r : ℝ) * PMT_distance_top) ^ 2 = ((r' : ℝ) * PMT_distance_top) ^ 2 := by
    rw [← normSq_topPt r k, ← normSq_topPt r' k', h]
  have hrr' : r = r' := by
    have hcast : (25281 : ℝ) * (r : ℝ) ^ 2 = 25281 * (r' : ℝ) ^ 2 := by
      rw [PMT_distance_top] at hnorm
      linear_combination (400 : ℝ) * hnorm
    have hnat : 25281 * r ^ 2 = 25281 * r' ^ 2 := by exact_mod_cast hcast
    interval_cases r <;> interval_cases r' <;> omega
  subst hrr'
  refine ⟨rfl, ?_⟩
  rcases Nat.eq_zero_or_pos r with h0 | hpos
  · exact Or.inl h0
  right
  -- on a positive ring the radius is nonzero, so the angles share cos and sin
  have hc1 : (1 : ℤ) ≤ cTop r := hk1.trans hk2
  have hc0 : (0 : ℝ) < (cTop r : ℝ) := by exact_mod_cast lt_of_lt_of_le zero_lt_one hc1
  have hR : (0 : ℝ) < (r : ℝ) * PMT_distance_top := by
    rw [PMT_distance_top]
    have : (1 : ℝ) ≤ (r : ℝ) := by exact_mod_cast hpos
    nlinarith
  have hx := congrArg Prod.fst h
  have hy := congrArg Prod.snd h
  simp only [topPt] at hx hy
  have hc : Real.cos ((k : ℝ) * Real.pi * 2 / (cTop r : ℝ)) =
      Real.cos ((k' : ℝ) * Real.pi * 2 / (cTop r : ℝ)) :=
    mul_left_cancel₀ (ne_of_gt hR) hx
  have hsin : Real.sin ((k : ℝ) * Real.pi * 2 / (cTop r : ℝ)) =
      Real.sin ((k' : ℝ) * Real.pi * 2 / (cTop r : ℝ)) :=
    mul_left_cancel₀ (ne_of_gt hR) hy
  have ht : (0 : ℝ) < Real.pi * 2 / (cTop r : ℝ) := by positivity
  have hdiff : (k : ℝ) * Real.pi * 2 / (cTop r : ℝ) -
      (k' : ℝ) * Real.pi * 2 / (cTop r : ℝ) =
      ((k : ℝ) - (k' : ℝ)) * (Real.pi * 2 / (cTop r : ℝ)) := by
    ring
  have hklt : ((k : ℝ) - (k' : ℝ)) < (cTop r : ℝ) := by
    have : k - k' < cTop r := by omega
    exact_mod_cast this
  have hkgt : -((cTop r : ℝ)) < ((k : ℝ) - (k' : ℝ)) := by
    have : -(cTop r) < k - k' := by omega
    exact_mod_cast this
  have hcdiv : (cTop r : ℝ) * (Real.pi * 2 / (cTop r : ℝ)) = Real.pi * 2 := by
    field_simp
  have hlt2 : (k : ℝ) * Real.pi * 2 / (cTop r : ℝ) -
      (k' : ℝ) * Real.pi * 2 / (cTop r : ℝ) < 2 * Real.pi := by
    rw [hdiff]
    have := mul_lt_mul_of_pos_right hklt ht
    rw [hcdiv] at this
    linarith
  have hgt2 : -(2 * Real.pi) < (k : ℝ) * Real.pi * 2 / (cTop r : ℝ) -
      (k' : ℝ) * Real.pi * 2 / (cTop r : ℝ) := by
    rw [hdiff]
    have := mul_lt_mul_of_pos_right hkgt ht
    rw [neg_mul, hcdiv] at this
    linarith
  have heq := cos_sin_eq hgt2 hlt2 hc hsin
  have : ((k : ℝ) - (k' : ℝ)) * (Real.pi * 2 / (cTop r : ℝ)) = 0 := by
    rw [← hdiff]
    linarith
  have hk0 : ((k : ℝ) - (k' : ℝ)) = 0 := by
    rcases mul_eq_zero.mp this with h' | h'
    · exact h'
    · exact absurd h' (ne_of_gt ht)
  have : (k : ℝ) = (k' : ℝ) := by linarith
  exact_mod_cast this

/-- A raw bottom-array position is the origin exactly when it is the middle
PMT of row 6. -/
lemma botPt_eq_origin_iff {r : ℕ} {k : ℤ} :
    botPt r k = (0, 0) ↔ (-4 * (cBot r - 1) + 8 * k = 0 ∧ r = 6) := by
  have hs : (0 : ℝ) < 4 * Real.sqrt 3 := by
    have := Real.sqrt_pos.mpr (show (0:ℝ) < 3 by norm_num)
    linarith
  constructor
  · intro h
    have hx : ((-4 * (cBot r - 1) + 8 * k : ℤ) : ℝ) = 0 := by
      rw [← botPt_x, h]
    have hy : ((6 - (r : ℤ) : ℤ) : ℝ) * (4 * Real.sqrt 3) = 0 := by
      rw [← botPt_y, h]
    have h6 : ((6 - (r : ℤ) : ℤ) : ℝ) = 0 := by
      rcases mul_eq_zero.mp hy with h' | h'
      · exact h'
      · exact absurd h' (ne_of_gt hs)
    have h6' : (6 - (r : ℤ)) = 0 := by exact_mod_cast h6
    have hx' : (-4 * (cBot r - 1) + 8 * k : ℤ) = 0 := by exact_mod_cast hx
    exact ⟨hx', by omega⟩
  · rintro ⟨hx, rfl⟩
    rw [Prod.ext_iff, botPt_x, botPt_y]
    refine ⟨?_, ?_⟩
    · show ((-4 * (cBot 6 - 1) + 8 * k : ℤ) : ℝ) = 0
      exact_mod_cast hx
    · show ((6 - (6 : ℤ) : ℤ) : ℝ) * (4 * Real.sqrt 3) = 0
      norm_num

/-- A rotated top-array PMT on a positive ring never coincides with a rotated
bottom-array PMT: the squared distance from the axis is `25281·r²/400`, never
an integer for `1 ≤ r ≤ 6`, while every bottom squared distance is an
integer. -/
lemma cross_distinct {r : ℕ} {k : ℤ} {row : ℕ} {j : ℤ}
    (hr1 : 1 ≤ r) (hr7 : r < 7) :
    rotate (topPt r k) rotation_angle_top ≠ rotate (botPt row j) rotation_angle_bottom := by
  intro h
  have hn : normSq (topPt r k) = normSq (botPt row j) := by
    rw [← normSq_rotate (topPt r k) rotation_angle_top, h, normSq_rotate]
  rw [normSq_topPt, normSq_botPt] at hn
  have hzz : (25281 * (r : ℤ) ^ 2 : ℤ) =
      400 * ((-4 * (cBot row - 1) + 8 * j) ^ 2 + 48 * (6 - (row : ℤ)) ^ 2) := by
    have hcast : (25281 : ℝ) * (r : ℝ) ^ 2 =
        400 * (((-4 * (cBot row - 1) + 8 * j) ^ 2 + 48 * (6 - (row : ℤ)) ^ 2 : ℤ) : ℝ) := by
      rw [PMT_distance_top] at hn
      push_cast
      push_cast at hn
      linear_combination (400 : ℝ) * hn
    exact_mod_cast hcast
  have hdvd : (400 : ℤ) ∣ 25281 * (r : ℤ) ^ 2 := ⟨_, hzz⟩
  interval_cases r <;> omega

/-! ## Channel accessor characterisation -/

lemma positions_top_length : positions_top.length = 127 := by
  simp [positions_top]

lemma positions_bottom_length : positions_bottom.length = 121 := by
  simp [positions_bottom]

lemma pmt_locations_length : pmt_locations.length = 248 := by
  simp [pmt_locations, positions_top, positions_bottom]

/-- Channel `ch < 127` holds the rotated top position for generation
number `127 - ch`. -/
lemma pmt_position_top {ch : ℕ} (h : ch < 127) :
    pmt_position ch =
      (get_pmt_positions_top (127 - (ch : ℤ))).map fun p => rotate p rotation_angle_top := by
  unfold pmt_position pmt_locations
  rw [List.getElem?_append_left (by rw [List.length_reverse, positions_top_length]; exact h)]
  rw [List.getElem?_reverse (by rw [positions_top_length]; exact h), positions_top_length]
  unfold positions_top
  rw [List.getElem?_map, List.getElem?_range (by omega)]
  simp only [Option.map_some', Option.getD_some]
  have harg : ((127 - 1 - ch : ℕ) : ℤ) + 1 = 127 - (ch : ℤ) := by omega
  rw [harg]

/-- Channel `127 ≤ ch < 248` holds the rotated bottom position for
generation number `ch + 1` (that is, `128 + (ch - 127)`). -/
lemma pmt_position_bot {ch : ℕ} (h1 : 127 ≤ ch) (h2 : ch < 248) :
    pmt_position ch =
      (get_pmt_positions_bottom ((ch : ℤ) + 1)).map fun p => rotate p rotation_angle_bottom := by
  unfold pmt_position pmt_locations
  rw [List.getElem?_append_right (by rw [List.length_reverse, positions_top_length]; exact h1)]
  rw [List.length_reverse, positions_top_length]
  unfold positions_bottom
  rw [List.getElem?_map, List.getElem?_range (by omega)]
  simp only [Option.map_some', Option.getD_some]
  have harg : (128 : ℤ) + ((ch - 127 : ℕ) : ℤ) = (ch : ℤ) + 1 := by omega
  rw [harg]

/-- Closed form of the accessor on the top block. -/
lemma pmt_position_top_pt {ch : ℕ} (h : ch < 127) :
    pmt_position ch =
      some (rotate (topPt (ringOf (127 - (ch : ℤ))) (withinTop (127 - (ch : ℤ))))
        rotation_angle_top) := by
  rw [pmt_position_top h, get_top_eq (by omega) (by omega), Option.map_some']

/-- Closed form of the accessor on the bottom block. -/
lemma pmt_position_bot_pt {ch : ℕ} (h1 : 127 ≤ ch) (h2 : ch < 248) :
    pmt_position ch =
      some (rotate (botPt (rowOf ((ch : ℤ) + 1)) (idx2Bot ((ch : ℤ) + 1)))
        rotation_angle_bottom) := by
  rw [pmt_position_bot h1 h2, get_bot_eq (by omega) (by omega), Option.map_some']

/-! ## Concrete evaluations -/

lemma count_top_eq : count_top = [1, 6, 12, 18, 24, 30, 36] := by decide

/-- `get_pmt_positions_top(0)`: the loop guard `0 > 1` fails at once, so the
out-of-range input is silently accepted and lands on the ring-0 centre. -/
lemma get_top_zero : get_pmt_positions_top 0 = some (0, 0) := by
  have hscan : scan count_top 0 0 count_top.length 0 1 = some (0, 1) := by decide
  have hget : count_top[0]? = some 1 := by decide
  have hrad : radius_top[0]? = some (((0 : ℕ) : ℝ) * PMT_distance_top) := by
    simp only [radius_top, List.getElem?_map,
      List.getElem?_range (by norm_num : (0 : ℕ) < 7), Option.map_some']
  simp only [get_pmt_positions_top, hscan, hget, hrad]
  norm_num

lemma get_top_one : get_pmt_positions_top 1 = some (0, 0) := by
  have h := @get_top_eq 1 (by norm_num) (by norm_num)
  rw [h, show ringOf 1 = 0 from by decide, topPt_ring_zero]

/-- `get_pmt_positions_top(128)`: the loop exhausts all seven rings and then
indexes `array[7]`, out of bounds. -/
lemma get_top_128 : get_pmt_positions_top 128 = none := by
  have hscan : scan count_top 0 128 count_top.length 0 1 = none := by decide
  simp only [get_pmt_positions_top, hscan]

/-- `get_pmt_positions_bottom(127)`: the guard `127 > 127 + 5` fails at once,
`index2 = -1`, and the out-of-range input silently yields `(-24, 24·√3)`. -/
lemma get_bot_127 : get_pmt_positions_bottom 127 = some (-24, 24 * Real.sqrt 3) := by
  have hscan : scan count_bottom n_pmts_top 127 count_bottom.length 0 5 = some (0, 5) := by
    decide
  have hget : count_bottom[0]? = some 5 := by decide
  have hoff : PMTsRowOffset[0]? = some (-0.5 * (((5 : ℤ) : ℝ) - 1) * PMT_distance_bottom) := by
    simp only [PMTsRowOffset, List.getElem?_map, hget, Option.map_some']
  simp only [get_pmt_positions_bottom, hscan, hget, hoff]
  rw [Option.some.injEq, Prod.ext_iff]
  constructor
  · show -0.5 * (((5 : ℤ) : ℝ) - 1) * PMT_distance_bottom +
        ((127 + 5 - 5 - (n_pmts_top + 1) : ℤ) : ℝ) * PMT_distance_bottom = -24
    rw [PMT_distance_bottom, n_pmts_top]
    norm_num
  · show (0.5 * ((n_rows : ℝ) - 1) - ((0 : ℕ) : ℝ)) * row_distance = 24 * Real.sqrt 3
    rw [row_distance, n_rows, PMT_distance_bottom]
    push_cast
    ring

/-- `get_pmt_positions_bottom(249)`: the loop exhausts all thirteen rows and
then indexes `array[13]`, out of bounds. -/
lemma get_bot_249 : get_pmt_positions_bottom 249 = none := by
  have hscan : scan count_bottom n_pmts_top 249 count_bottom.length 0 5 = none := by decide
  simp only [get_pmt_positions_bottom, hscan]

set_option maxRecDepth 10000 in
/-- Only generation number 188 (the middle PMT of row 6) sits at the origin of
the bottom array. -/
lemma origin_unique_bot : ∀ n ∈ Finset.Icc (128 : ℤ) 248,
    (-4 * (cBot (rowOf n) - 1) + 8 * idx2Bot n = 0 ∧ rowOf n = 6) → n = 188 := by decide

/-! ## The 1-based within-row index, and row surjectivity -/

/-- The 1-based index of generation number `n` within its bottom-array row
(the first PMT of a row has `within1Bot = 1`). -/
def within1Bot (n : ℤ) : ℤ := n - 127 - (count_bottom.take (rowOf n)).sum

set_option maxRecDepth 10000 in
/-- The code's `index2` is the 0-based within-row index: one less than the
1-based one. -/
lemma idx2Bot_eq_within1_sub_one : ∀ n ∈ Finset.Icc (128 : ℤ) 248,
    idx2Bot n = within1Bot n - 1 := by decide

set_option maxRecDepth 10000 in
/-- Every slot `(row, 0-based index)` is hit by the generation number
`128 + (cumulative count before the row) + index`. -/
lemma row_surj : ∀ r ∈ Finset.range 13, ∀ k ∈ Finset.Icc (0 : ℤ) (cBot r - 1),
    128 ≤ 128 + (count_bottom.take r).sum + k ∧
    128 + (count_bottom.take r).sum + k ≤ 248 ∧
    rowOf (128 + (count_bottom.take r).sum + k) = r ∧
    idx2Bot (128 + (count_bottom.take r).sum + k) = k := by decide

/-! ## Distinctness of the assembled positions -/

lemma pmt_position_total {ch : ℕ} (h : ch < 248) : ∃ p, pmt_position ch = some p := by
  rcases lt_or_ge ch 127 with h' | h'
  · exact ⟨_, pmt_position_top_pt h'⟩
  · exact ⟨_, pmt_position_bot_pt h' h⟩

lemma top_top_distinct {c1 c2 : ℕ} (h1 : c1 < 127) (h2 : c2 < 127) (hne : c1 ≠ c2)
    {p1 p2 : ℝ × ℝ} (hp1 : pmt_position c1 = some p1)
    (hp2 : pmt_position c2 = some p2) : p1 ≠ p2 := by
  rw [pmt_position_top_pt h1] at hp1
  rw [pmt_position_top_pt h2] at hp2
  have e1 := Option.some.inj hp1
  have e2 := Option.some.inj hp2
  intro heq
  rw [← e1, ← e2] at heq
  have hraw := rotate_inj heq
  obtain ⟨-, -, hr7, hw1, hw2, -, hid, h0⟩ :=
    top_scan_char (127 - (c1 : ℤ)) (Finset.mem_Icc.mpr ⟨by omega, by omega⟩)
  obtain ⟨-, -, hr7', hw1', hw2', -, hid', h0'⟩ :=
    top_scan_char (127 - (c2 : ℤ)) (Finset.mem_Icc.mpr ⟨by omega, by omega⟩)
  obtain ⟨hrr, hor⟩ := topPt_inj hr7 hr7' hw1 hw2 hw1' hw2' hraw
  rcases hor with hz | hweq
  · have ha := h0 hz
    have hb := h0' (hrr ▸ hz)
    omega
  · rw [← hrr, ← hweq] at hid'
    omega

lemma bot_bot_distinct {c1 c2 : ℕ} (h1 : 127 ≤ c1) (h1' : c1 < 248)
    (h2 : 127 ≤ c2) (h2' : c2 < 248) (hne : c1 ≠ c2)
    {p1 p2 : ℝ × ℝ} (hp1 : pmt_position c1 = some p1)
    (hp2 : pmt_position c2 = some p2) : p1 ≠ p2 := by
  rw [pmt_position_bot_pt h1 h1'] at hp1
  rw [pmt_position_bot_pt h2 h2'] at hp2
  have e1 := Option.some.inj hp1
  have e2 := Option.some.inj hp2
  intro heq
  rw [← e1, ← e2] at heq
  have hraw := rotate_inj heq
  obtain ⟨hrr, hkk⟩ := botPt_inj hraw
  obtain ⟨-, -, -, -, -, -, hid⟩ :=
    bot_scan_char ((c1 : ℤ) + 1) (Finset.mem_Icc.mpr ⟨by omega, by omega⟩)
  obtain ⟨-, -, -, -, -, -, hid'⟩ :=
    bot_scan_char ((c2 : ℤ) + 1) (Finset.mem_Icc.mpr ⟨by omega, by omega⟩)
  rw [← hrr, ← hkk] at hid'
  omega

lemma top_bot_distinct {c1 c2 : ℕ} (h1 : c1 < 127) (h2 : 127 ≤ c2) (h2' : c2 < 248)
    (hx : ¬(c1 = 126 ∧ c2 = 187))
    {p1 p2 : ℝ × ℝ} (hp1 : pmt_position c1 = some p1)
    (hp2 : pmt_position c2 = some p2) : p1 ≠ p2 := by
  rw [pmt_position_top_pt h1] at hp1
  rw [pmt_position_bot_pt h2 h2'] at hp2
  have e1 := Option.some.inj hp1
  have e2 := Option.some.inj hp2
  intro heq
  rw [← e1, ← e2] at heq
  obtain ⟨-, -, hr7, -, -, -, -, h0⟩ :=
    top_scan_char (127 - (c1 : ℤ)) (Finset.mem_Icc.mpr ⟨by omega, by omega⟩)
  rcases Nat.eq_zero_or_pos (ringOf (127 - (c1 : ℤ))) with hz | hpos
  · -- the top point is the array centre; the bottom point must then be the
    -- origin as well, which pins the pair of channels to (126, 187)
    have hn1 : (127 - (c1 : ℤ)) = 1 := h0 hz
    rw [hz, topPt_ring_zero] at heq
    rw [rotate_origin] at heq
    have hbp : botPt (rowOf ((c2 : ℤ) + 1)) (idx2Bot ((c2 : ℤ) + 1)) = (0, 0) := by
      apply @rotate_inj rotation_angle_bottom
      rw [rotate_origin, ← heq]
    obtain ⟨hxz, hrow6⟩ := botPt_eq_origin_iff.mp hbp
    have h188 := origin_unique_bot ((c2 : ℤ) + 1)
      (Finset.mem_Icc.mpr ⟨by omega, by omega⟩) ⟨hxz, hrow6⟩
    exact hx ⟨by omega, by omega⟩
  · exact cross_distinct hpos hr7 heq

lemma distinct_main : ∀ c1 c2 : ℕ, c1 < 248 → c2 < 248 → c1 ≠ c2 →
    ¬(c1 = 126 ∧ c2 = 187) → ¬(c1 = 187 ∧ c2 = 126) →
    ∀ p1 p2 : ℝ × ℝ, pmt_position c1 = some p1 → pmt_position c2 = some p2 →
      p1 ≠ p2 := by
  intro c1 c2 h1 h2 hne hx1 hx2 p1 p2 hp1 hp2
  rcases lt_or_ge c1 127 with hc1 | hc1 <;> rcases lt_or_ge c2 127 with hc2 | hc2
  · exact top_top_distinct hc1 hc2 hne hp1 hp2
  · exact top_bot_distinct hc1 hc2 h2 (by tauto) hp1 hp2
  · intro heq
    exact top_bot_distinct hc2 hc1 h1 (by tauto) hp2 hp1 heq.symm
  · exact bot_bot_distinct hc1 h1 hc2 h2 hne hp1 hp2

/-- Channel 126 (top generation number 1) sits exactly at the origin. -/
lemma pmt_126 : pmt_position 126 = some (0, 0) := by
  have h := @pmt_position_top_pt 126 (by norm_num)
  rw [show (127 : ℤ) - ((126 : ℕ) : ℤ) = 1 from by norm_num] at h
  rw [h, show ringOf 1 = 0 from by decide, topPt_ring_zero, rotate_origin]

/-- Channel 187 (bottom generation number 188, middle of row 6) also sits
exactly at the origin. -/
lemma pmt_187 : pmt_position 187 = some (0, 0) := by
  have h := @pmt_position_bot_pt 187 (by norm_num) (by norm_num)
  rw [show ((187 : ℕ) : ℤ) + 1 = 188 from by norm_num] at h
  rw [h, show rowOf 188 = 6 from by decide, show idx2Bot 188 = 5 from by decide,
    show botPt 6 5 = (0, 0) from botPt_eq_origin_iff.mpr ⟨by decide, rfl⟩, rotate_origin]

/-! ## Radius of a top-array PMT -/

lemma top_radius_general (n : ℤ) (h1 : 1 ≤ n) (h2 : n ≤ 127) :
    ∃ p, get_pmt_positions_top n = some p ∧
      Real.sqrt (p.1 ^ 2 + p.2 ^ 2) = (ringOf n : ℝ) * PMT_distance_top := by
  refine ⟨_, get_top_eq h1 h2, ?_⟩
  have h := normSq_topPt (ringOf n) (withinTop n)
  rw [normSq] at h
  rw [h]
  apply Real.sqrt_sq
  have hd : (0 : ℝ) ≤ PMT_distance_top := by rw [PMT_distance_top]; norm_num
  exact mul_nonneg (Nat.cast_nonneg _) hd

/-- The x-coordinate formula asserted by the spec for the bottom array,
reading `within` as the **1-based** within-row index (`within1Bot`), exactly
as §4.2 states it.  The code disagrees: its `index2` is 0-based. -/
noncomputable def claimed_bottom_x (n : ℤ) : ℝ :=
  -0.5 * ((cBot (rowOf n) : ℝ) - 1) * PMT_distance_bottom +
    (within1Bot n : ℝ) * PMT_distance_bottom

/-! ## The claims -/

/-- **C1** (corrected).  The assembled list has exactly 248 entries, each a
position; any two distinct channels carry distinct positions **except**
channels 126 and 187, which coincide exactly at the origin, so the original
claim of full injectivity fails. -/
theorem C1_assembled_positions :
    pmt_locations.length = 248 ∧
    (∀ ch : ℕ, ch < 248 → ∃ p, pmt_position ch = some p) ∧
    (∀ c1 c2 : ℕ, c1 < 248 → c2 < 248 → c1 ≠ c2 →
      ¬(c1 = 126 ∧ c2 = 187) → ¬(c1 = 187 ∧ c2 = 126) →
      ∀ p1 p2 : ℝ × ℝ, pmt_position c1 = some p1 → pmt_position c2 = some p2 →
        p1 ≠ p2) ∧
    pmt_position 126 = some (0, 0) ∧ pmt_position 187 = some (0, 0) :=
  ⟨pmt_locations_length, fun _ h => pmt_position_total h, distinct_main, pmt_126, pmt_187⟩

/-- **C1** counterexample: channels 126 and 187 are distinct yet hold the
identical position `(0, 0)`, exactly (difference 0 in both coordinates), so
"no two channels map to the identical pair" is false. -/
theorem C1_counterexample :
    (126 : ℕ) ≠ 187 ∧
    pmt_position 126 = some (0, 0) ∧ pmt_position 187 = some (0, 0) :=
  ⟨by decide, pmt_126, pmt_187⟩

/-- **C5** counterexample: `locate_top(0)` returns coordinates (the origin)
instead of failing with any error. -/
theorem C5_counterexample :
    get_pmt_positions_top 0 = some (0, 0) ∧ get_pmt_positions_top 0 ≠ none := by
  refine ⟨get_top_zero, ?_⟩
  rw [get_top_zero]
  exact Option.some_ne_none _

/-- **C5** (amended): the reference locators perform no range check at all.
`locate_top(0)` and `locate_bottom(127)` silently return coordinates, while
`locate_top(128)` and `locate_bottom(249)` fail with an uncaught index error
(modelled as `none`) rather than a checked `OutOfRange`. -/
theorem C5_out_of_range_behaviour :
    get_pmt_positions_top 0 = some (0, 0) ∧
    get_pmt_positions_bottom 127 = some (-24, 24 * Real.sqrt 3) ∧
    get_pmt_positions_top 128 = none ∧
    get_pmt_positions_bottom 249 = none :=
  ⟨get_top_zero, get_bot_127, get_top_128, get_bot_249⟩

/-- **C6**: on the valid domains both cumulative-sum while loops terminate
(top reaching ring index at most 6, bottom row index at most 12) and both
locators return a pair of reals (in `ℝ` every value is finite). -/
theorem C6_termination :
    (∀ n : ℤ, 1 ≤ n → n ≤ 127 →
      ∃ i tot, scan count_top 0 n count_top.length 0 1 = some (i, tot) ∧ i ≤ 6 ∧
        ∃ p, get_pmt_positions_top n = some p) ∧
    (∀ n : ℤ, 128 ≤ n → n ≤ 248 →
      ∃ i tot, scan count_bottom n_pmts_top n count_bottom.length 0 5 = some (i, tot) ∧
        i ≤ 12 ∧ ∃ p, get_pmt_positions_bottom n = some p) := by
  constructor
  · intro n h1 h2
    obtain ⟨hscan, -, hlt, -⟩ := top_scan_char n (Finset.mem_Icc.mpr ⟨h1, h2⟩)
    exact ⟨_, _, hscan, by omega, _, get_top_eq h1 h2⟩
  · intro n h1 h2
    obtain ⟨hscan, -, hlt, -⟩ := bot_scan_char n (Finset.mem_Icc.mpr ⟨h1, h2⟩)
    exact ⟨_, _, hscan, by omega, _, get_bot_eq h1 h2⟩

/-- **C7**: `rotate` is the standard rotation about the origin, and rotating
by an angle and then by its negation returns the original position exactly
over the reals. -/
theorem C7_rotation_round_trip (pos : ℝ × ℝ) (angle : ℝ) :
    rotate pos angle = (pos.1 * Real.cos angle - pos.2 * Real.sin angle,
      pos.1 * Real.sin angle + pos.2 * Real.cos angle) ∧
    rotate (rotate pos angle) (-angle) = pos :=
  ⟨rfl, rotate_neg_rotate pos angle⟩

/-- **C9** (implicit): rotation preserves the squared Euclidean norm exactly
over the reals, so every rotated PMT keeps its distance from the detector
axis. -/
theorem C9_rotation_preserves_norm (pos : ℝ × ℝ) (angle : ℝ) :
    (rotate pos angle).1 ^ 2 + (rotate pos angle).2 ^ 2 =
      pos.1 ^ 2 + pos.2 ^ 2 := by
  have h := normSq_rotate pos angle
  simpa [normSq] using h

/-- **C10** (implicit): the out-of-range input 0 is silently accepted by the
top locator — the while-loop guard `0 > 1` fails at once — and yields exactly
`(0.0, 0.0)`, the same position as the valid input 1. -/
theorem C10_zero_silently_accepted :
    get_pmt_positions_top 0 = some (0, 0) ∧
    get_pmt_positions_top 1 = some (0, 0) ∧
    get_pmt_positions_top 0 = get_pmt_positions_top 1 := by
  refine ⟨get_top_zero, get_top_one, ?_⟩
  rw [get_top_zero, get_top_one]

/-- **C2**: channel `i` (0 ≤ i ≤ 126) is the rotated top position for
generation number `127 - i`, channel `127 + i` (0 ≤ i ≤ 120) is the rotated
bottom position for generation number `128 + i`; in particular the four
endpoint channels 0, 126, 127 and 247. -/
theorem C2_assembly_mapping :
    (∀ i : ℕ, i ≤ 126 → pmt_position i =
      (get_pmt_positions_top (127 - (i : ℤ))).map fun p => rotate p rotation_angle_top) ∧
    (∀ i : ℕ, i ≤ 120 → pmt_position (127 + i) =
      (get_pmt_positions_bottom (128 + (i : ℤ))).map fun p =>
        rotate p rotation_angle_bottom) ∧
    pmt_position 0 = (get_pmt_positions_top 127).map
      (fun p => rotate p rotation_angle_top) ∧
    pmt_position 126 = (get_pmt_positions_top 1).map
      (fun p => rotate p rotation_angle_top) ∧
    pmt_position 127 = (get_pmt_positions_bottom 128).map
      (fun p => rotate p rotation_angle_bottom) ∧
    pmt_position 247 = (get_pmt_positions_bottom 248).map
      (fun p => rotate p rotation_angle_bottom) := by
  have htop : ∀ i : ℕ, i ≤ 126 → pmt_position i =
      (get_pmt_positions_top (127 - (i : ℤ))).map fun p => rotate p rotation_angle_top :=
    fun i hi => pmt_position_top (by omega)
  have hbot : ∀ i : ℕ, i ≤ 120 → pmt_position (127 + i) =
      (get_pmt_positions_bottom (128 + (i : ℤ))).map fun p =>
        rotate p rotation_angle_bottom := by
    intro i hi
    have h := @pmt_position_bot (127 + i) (by omega) (by omega)
    rw [show ((127 + i : ℕ) : ℤ) + 1 = 128 + (i : ℤ) from by push_cast; ring] at h
    exact h
  refine ⟨htop, hbot, ?_, ?_, ?_, ?_⟩
  · have h := htop 0 (by norm_num)
    rw [show (127 : ℤ) - ((0 : ℕ) : ℤ) = 127 from by norm_num] at h
    exact h
  · have h := htop 126 (by norm_num)
    rw [show (127 : ℤ) - ((126 : ℕ) : ℤ) = 1 from by norm_num] at h
    exact h
  · have h := @pmt_position_bot 127 (by norm_num) (by norm_num)
    rw [show ((127 : ℕ) : ℤ) + 1 = 128 from by norm_num] at h
    exact h
  · have h := @pmt_position_bot 247 (by norm_num) (by norm_num)
    rw [show ((247 : ℕ) : ℤ) + 1 = 248 from by norm_num] at h
    exact h

/-- **C3**: the top-array ring counts are `[1, 6, 12, 18, 24, 30, 36]`; for
every `n` in `[1, 127]` the distance of `locate_top(n)` from the origin is
`r * 7.95` where `r` (`ringOf n`) is the smallest ring index whose cumulative
count reaches `n`; in particular `locate_top(1) = (0, 0)`, generation numbers
2 and 7 lie at radius 7.95 and generation number 8 at radius 15.9. -/
theorem C3_top_radius :
    count_top = [1, 6, 12, 18, 24, 30, 36] ∧
    (∀ n : ℤ, 1 ≤ n → n ≤ 127 →
      ∃ p, get_pmt_positions_top n = some p ∧
        Real.sqrt (p.1 ^ 2 + p.2 ^ 2) = (ringOf n : ℝ) * PMT_distance_top) ∧
    get_pmt_positions_top 1 = some (0, 0) ∧
    (∃ p, get_pmt_positions_top 2 = some p ∧
      Real.sqrt (p.1 ^ 2 + p.2 ^ 2) = 7.95) ∧
    (∃ p, get_pmt_positions_top 7 = some p ∧
      Real.sqrt (p.1 ^ 2 + p.2 ^ 2) = 7.95) ∧
    (∃ p, get_pmt_positions_top 8 = some p ∧
      Real.sqrt (p.1 ^ 2 + p.2 ^ 2) = 15.9) := by
  refine ⟨count_top_eq, fun n h1 h2 => top_radius_general n h1 h2, get_top_one,
    ?_, ?_, ?_⟩
  · obtain ⟨p, hp, hr⟩ := top_radius_general 2 (by norm_num) (by norm_num)
    refine ⟨p, hp, ?_⟩
    rw [hr, show ringOf 2 = 1 from by decide, PMT_distance_top]
    norm_num
  · obtain ⟨p, hp, hr⟩ := top_radius_general 7 (by norm_num) (by norm_num)
    refine ⟨p, hp, ?_⟩
    rw [hr, show ringOf 7 = 1 from by decide, PMT_distance_top]
    norm_num
  · obtain ⟨p, hp, hr⟩ := top_radius_general 8 (by norm_num) (by norm_num)
    refine ⟨p, hp, ?_⟩
    rw [hr, show ringOf 8 = 2 from by decide, PMT_distance_top]
    norm_num

/-- **C4** counterexample: at `n = 128` the code returns `x = -16` (the
leftmost PMT of row 0), but the claim's formula with the 1-based `within`
gives `row_offset[0] + 1·8.0 = -8`. -/
theorem C4_counterexample :
    get_pmt_positions_bottom 128 = some (-16, 24 * Real.sqrt 3) ∧
    claimed_bottom_x 128 = -8 ∧ ((-16 : ℝ) ≠ -8) := by
  refine ⟨?_, ?_, by norm_num⟩
  · rw [get_bot_eq (by norm_num) (by norm_num),
      show rowOf 128 = 0 from by decide, show idx2Bot 128 = 0 from by decide]
    rw [Option.some.injEq, Prod.ext_iff, botPt_x, botPt_y]
    constructor
    · show ((-4 * (cBot 0 - 1) + 8 * 0 : ℤ) : ℝ) = -16
      rw [show cBot 0 = 5 from by decide]
      norm_num
    · show ((6 - ((0 : ℕ) : ℤ) : ℤ) : ℝ) * (4 * Real.sqrt 3) = 24 * Real.sqrt 3
      push_cast
      ring
  · simp only [claimed_bottom_x, show rowOf 128 = 0 from by decide,
      show within1Bot 128 = 1 from by decide, show cBot 0 = 5 from by decide,
      PMT_distance_bottom]
    norm_num

/-- **C4** (amended): for every `n` in `[128, 248]`, `locate_bottom(n)` is
`(row_offset[r] + (within - 1) * 8.0, (0.5*(13-1) - r) * (√3/2) * 8.0)` where
`r` is the row found by the running-total scan, `within` is the **1-based**
within-row index and `within - 1` the **0-based** one the code actually
multiplies by. -/
theorem C4_bottom_formula (n : ℤ) (h1 : 128 ≤ n) (h2 : n ≤ 248) :
    get_pmt_positions_bottom n =
      some (-0.5 * ((cBot (rowOf n) : ℝ) - 1) * PMT_distance_bottom +
              ((within1Bot n - 1 : ℤ) : ℝ) * PMT_distance_bottom,
            (0.5 * ((13 : ℝ) - 1) - (rowOf n : ℝ)) *
              (Real.sqrt 3 / 2 * PMT_distance_bottom)) := by
  rw [get_bot_eq h1 h2]
  have hidx : idx2Bot n = within1Bot n - 1 :=
    idx2Bot_eq_within1_sub_one n (Finset.mem_Icc.mpr ⟨h1, h2⟩)
  rw [Option.some.injEq, Prod.ext_iff]
  constructor
  · show -0.5 * ((cBot (rowOf n) : ℝ) - 1) * PMT_distance_bottom +
        ((idx2Bot n : ℤ) : ℝ) * PMT_distance_bottom = _
    rw [hidx]
  · show (0.5 * ((n_rows : ℝ) - 1) - ((rowOf n : ℕ) : ℝ)) * row_distance = _
    rw [row_distance, n_rows]
    norm_num

/-- **C4** witness: the amended formula evaluated at `n = 128`. -/
theorem C4_bottom_formula_witness :
    get_pmt_positions_bottom 128 =
      some (-0.5 * ((cBot (rowOf 128) : ℝ) - 1) * PMT_distance_bottom +
              ((within1Bot 128 - 1 : ℤ) : ℝ) * PMT_distance_bottom,
            (0.5 * ((13 : ℝ) - 1) - (rowOf 128 : ℝ)) *
              (Real.sqrt 3 / 2 * PMT_distance_bottom)) :=
  C4_bottom_formula 128 (by norm_num) (by norm_num)

/-- **C8**: for every row `r`, the x-coordinates produced by the bottom
locator for the generation numbers of row `r` are exactly the arithmetic
progression `row_offset[r] + k·8.0` for `0 ≤ k < row_count[r]` (spanning
`-0.5*(c-1)*8` to `+0.5*(c-1)*8` in steps of 8), and the set is symmetric
about `x = 0`. -/
theorem C8_row_centering (r : ℕ) (hr : r ≤ 12) :
    (∀ x : ℝ,
      (∃ n : ℤ, 128 ≤ n ∧ n ≤ 248 ∧ rowOf n = r ∧
        ∃ p, get_pmt_positions_bottom n = some p ∧ p.1 = x) ↔
      (∃ k : ℤ, 0 ≤ k ∧ k < cBot r ∧
        x = -0.5 * ((cBot r : ℝ) - 1) * PMT_distance_bottom +
          (k : ℝ) * PMT_distance_bottom)) ∧
    (∀ x : ℝ,
      (∃ n : ℤ, 128 ≤ n ∧ n ≤ 248 ∧ rowOf n = r ∧
        ∃ p, get_pmt_positions_bottom n = some p ∧ p.1 = x) →
      ∃ m : ℤ, 128 ≤ m ∧ m ≤ 248 ∧ rowOf m = r ∧
        ∃ q, get_pmt_positions_bottom m = some q ∧ q.1 = -x) := by
  constructor
  · intro x
    constructor
    · rintro ⟨n, hn1, hn2, hrow, p, hp, hx⟩
      rw [get_bot_eq hn1 hn2] at hp
      obtain ⟨-, -, -, hk0, hk1, -, -⟩ := bot_scan_char n (Finset.mem_Icc.mpr ⟨hn1, hn2⟩)
      rw [hrow] at hk1
      have hpb : p = botPt (rowOf n) (idx2Bot n) := (Option.some.inj hp).symm
      refine ⟨idx2Bot n, hk0, by omega, ?_⟩
      rw [← hx, hpb, hrow]
      rfl
    · rintro ⟨k, hk0, hk1, hx⟩
      obtain ⟨h1, h2, h3, h4⟩ := row_surj r (Finset.mem_range.mpr (by omega))
        k (Finset.mem_Icc.mpr ⟨hk0, by omega⟩)
      refine ⟨128 + (count_bottom.take r).sum + k, h1, h2, h3, _,
        get_bot_eq h1 h2, ?_⟩
      rw [h3, h4, hx]
      rfl
  · intro x
    rintro ⟨n, hn1, hn2, hrow, p, hp, hx⟩
    rw [get_bot_eq hn1 hn2] at hp
    obtain ⟨-, -, -, hk0, hk1, -, -⟩ := bot_scan_char n (Finset.mem_Icc.mpr ⟨hn1, hn2⟩)
    rw [hrow] at hk1
    have hpb : p = botPt (rowOf n) (idx2Bot n) := (Option.some.inj hp).symm
    obtain ⟨h1, h2, h3, h4⟩ := row_surj r (Finset.mem_range.mpr (by omega))
      (cBot r - 1 - idx2Bot n) (Finset.mem_Icc.mpr ⟨by omega, by omega⟩)
    refine ⟨128 + (count_bottom.take r).sum + (cBot r - 1 - idx2Bot n), h1, h2, h3, _,
      get_bot_eq h1 h2, ?_⟩
    rw [h3, h4, ← hx, hpb, hrow]
    show -0.5 * ((cBot r : ℝ) - 1) * PMT_distance_bottom +
        ((cBot r - 1 - idx2Bot n : ℤ) : ℝ) * PMT_distance_bottom =
      -(-0.5 * ((cBot r : ℝ) - 1) * PMT_distance_bottom +
        ((idx2Bot n : ℤ) : ℝ) * PMT_distance_bottom)
    push_cast
    ring

/-- **C8** witness: row 0 evaluated at `x = -16` (the leftmost PMT of the
five-PMT row). -/
theorem C8_row_centering_witness :
    (0 : ℕ) ≤ 12 ∧
    ((∃ n : ℤ, 128 ≤ n ∧ n ≤ 248 ∧ rowOf n = 0 ∧
        ∃ p, get_pmt_positions_bottom n = some p ∧ p.1 = (-16 : ℝ)) ↔
      (∃ k : ℤ, 0 ≤ k ∧ k < cBot 0 ∧
        (-16 : ℝ) = -0.5 * ((cBot 0 : ℝ) - 1) * PMT_distance_bottom +
          (k : ℝ) * PMT_distance_bottom)) :=
  ⟨by norm_num, (C8_row_centering 0 (by norm_num)).1 (-16)⟩

end PMTPositions
